import Mathlib

/-!
Verification of the expiring in-memory key/value cache in
`src/utils/cache/cache.go` (package `cache`).

Shallow embedding: Go `time.Duration` and `UnixNano` timestamps are `Int`
(nanoseconds); the Go map `map[string]Item` is an association list
`List (String × Item V)` whose keys are unique in every reachable state
(Go maps cannot hold duplicate keys, so theorems that depend on counting
or on uniqueness carry a `Nodup` hypothesis on the key list); the opaque
payload `interface{}` is a type parameter `V`, with `Option V` standing
for a possibly-nil interface value in returns; `time.Now()` becomes an
explicit `now : Int` argument to each operation that reads the clock.
The eviction callback `onEvicted func(string, interface{})` is modelled
by a `Bool` registration flag plus, for each operation that may invoke
it, an explicit list of the `(key, value)` invocations the operation
performs, in order.  Locking is modelled, where a claim needs it, by an
event trace listing lock, unlock and callback-invocation events in the
order the Go statements execute them (a `defer c.mu.Unlock()` fires at
function return, after every other statement of the body).
-/

namespace GoCache

/-- `type Item struct { Object interface{}; Expiration int64 }`. -/
structure Item (V : Type) where
  Object : V
  Expiration : Int
deriving Repr, DecidableEq

/-- `NoExpiration time.Duration = -1`. -/
def NoExpiration : Int := -1

/-- `DefaultExpiration time.Duration = 0`. -/
def DefaultExpiration : Int := 0

/-- The `cache` struct: `defaultExpiration time.Duration`,
`items map[string]Item`, `onEvicted func(string, interface{})`
(modelled as a registration flag).  The mutex and janitor fields carry
no map state and are modelled separately (traces / not at all). -/
structure cache (V : Type) where
  defaultExpiration : Int
  items : List (String × Item V)
  onEvicted : Bool
deriving Repr, DecidableEq

/-- Go `delete(c.items, k)`: remove the binding for `k`, if any. -/
def eraseKey {V : Type} (k : String) (l : List (String × Item V)) :
    List (String × Item V) :=
  l.filter (fun p => !(p.1 == k))

/-- Go `c.items[k] = it`: map assignment (replace any existing binding). -/
def upsert {V : Type} (k : String) (it : Item V) (l : List (String × Item V)) :
    List (String × Item V) :=
  eraseKey k l ++ [(k, it)]

/-- `newCache(de, m)`: `if de == 0 { de = -1 }`, then build the struct
(`onEvicted` starts unset, i.e. nil). -/
def newCache {V : Type} (de : Int) (m : List (String × Item V)) : cache V :=
  { defaultExpiration := if de = 0 then -1 else de
    items := m
    onEvicted := false }

/-- Errors returned by `Add` / `Replace` (`fmt.Errorf` values carrying
the key). -/
inductive CacheError where
  | keyExists (k : String)
  | keyNotFound (k : String)
deriving Repr, DecidableEq

/-- `func (c *cache) Set(k, x, d)`: resolve `d == DefaultExpiration` to
`c.defaultExpiration`; `e` is 0 unless `d > 0`, in which case
`e = time.Now().Add(d).UnixNano()`, i.e. `now + d`; then assign. -/
def cache.Set {V : Type} (c : cache V) (now : Int) (k : String) (x : V)
    (d : Int) : cache V :=
  let d' := if d = DefaultExpiration then c.defaultExpiration else d
  let e : Int := if d' > 0 then now + d else 0
  { c with items := upsert k ⟨x, e⟩ c.items }

/-- `func (c *cache) set(k, x, d)` (the lock-free variant used by `Add`
and `Replace`).  Faithful to the source: when `d > 0` it stores
`e = time.Now().UnixNano()` — the current instant, NOT `now + d`
(the source omits `.Add(d)` here). -/
def cache.set {V : Type} (c : cache V) (now : Int) (k : String) (x : V)
    (d : Int) : cache V :=
  let d' := if d = DefaultExpiration then c.defaultExpiration else d
  let e : Int := if d' > 0 then now else 0
  { c with items := upsert k ⟨x, e⟩ c.items }

/-- `func (c *cache) SetDefault(k, x)`: `c.Set(k, x, DefaultExpiration)`. -/
def cache.SetDefault {V : Type} (c : cache V) (now : Int) (k : String)
    (x : V) : cache V :=
  c.Set now k x DefaultExpiration

/-- `func (c *cache) get(k)` (lock-free lookup): found and not past a
positive expiration ⇒ `(item.Object, true)`; otherwise `(nil, false)`. -/
def cache.get {V : Type} (c : cache V) (now : Int) (k : String) :
    Option V × Bool :=
  match c.items.lookup k with
  | none => (none, false)
  | some item =>
    if item.Expiration > 0 ∧ now > item.Expiration then (none, false)
    else (some item.Object, true)

/-- `func (c *cache) Get(k)`: same body as `get`, under the lock. -/
def cache.Get {V : Type} (c : cache V) (now : Int) (k : String) :
    Option V × Bool :=
  match c.items.lookup k with
  | none => (none, false)
  | some item =>
    if item.Expiration > 0 ∧ now > item.Expiration then (none, false)
    else (some item.Object, true)

/-- Go `time.Time` results of `GetWithExpiration`: either the zero value
`time.Time{}` or `time.Unix(0, e)` for a stored expiration `e`. -/
inductive GoTime where
  | zero
  | unixNano (n : Int)
deriving Repr, DecidableEq

/-- `func (c *cache) GetWithExpiration(k)`: not found ⇒
`(nil, time.Time{}, false)`; positive expiration in the past ⇒
`(nil, time.Time{}, false)`; positive expiration not yet passed ⇒
`(item.Object, time.Unix(0, e), true)`; otherwise (never-expiring) ⇒
`(item.Object, time.Time{}, true)`. -/
def cache.GetWithExpiration {V : Type} (c : cache V) (now : Int)
    (k : String) : Option V × GoTime × Bool :=
  match c.items.lookup k with
  | none => (none, GoTime.zero, false)
  | some item =>
    if item.Expiration > 0 then
      if now > item.Expiration then (none, GoTime.zero, false)
      else (some item.Object, GoTime.unixNano item.Expiration, true)
    else (some item.Object, GoTime.zero, true)

/-- `func (c *cache) Add(k, x, d)`: under one lock acquisition, `get`
then — only if not found — `set`; returns the error and the resulting
state. -/
def cache.Add {V : Type} (c : cache V) (now : Int) (k : String) (x : V)
    (d : Int) : cache V × Option CacheError :=
  match c.get now k with
  | (_, true) => (c, some (CacheError.keyExists k))
  | (_, false) => (c.set now k x d, none)

/-- `func (c *cache) Replace(k, x, d)`: under one lock acquisition,
`get` then — only if found — `set`. -/
def cache.Replace {V : Type} (c : cache V) (now : Int) (k : String) (x : V)
    (d : Int) : cache V × Option CacheError :=
  match c.get now k with
  | (_, false) => (c, some (CacheError.keyNotFound k))
  | (_, true) => (c.set now k x d, none)

/-- `func (c *cache) delete(k)`: if a callback is registered and the key
is present, remove it and return `(v.Object, true)`; in every other case
remove the key (a no-op when absent) and return `(nil, false)`. -/
def cache.delete {V : Type} (c : cache V) (k : String) :
    (Option V × Bool) × cache V :=
  if c.onEvicted then
    match c.items.lookup k with
    | some v => ((some v.Object, true), { c with items := eraseKey k c.items })
    | none => ((none, false), { c with items := eraseKey k c.items })
  else
    ((none, false), { c with items := eraseKey k c.items })

/-- `func (c *cache) Delete(k)`: `v, evicted := c.delete(k); if evicted
{ c.onEvicted(k, v) }`.  The second component lists the callback
invocations the call performs. -/
def cache.Delete {V : Type} (c : cache V) (k : String) :
    cache V × List (String × Option V) :=
  match c.delete k with
  | ((v, true), c') => (c', [(k, v)])
  | ((_, false), c') => (c', [])

/-- The loop body of `DeleteExpired`: iterate over the entries snapshot;
for each entry with `v.Expiration > 0 && now > v.Expiration`, call
`c.delete(k)` and, when it reports an eviction, append `(k, ov)` to the
collected list. -/
def deleteExpiredLoop {V : Type} (now : Int) :
    List (String × Item V) → cache V → List (String × Option V) →
      cache V × List (String × Option V)
  | [], st, acc => (st, acc)
  | kv :: rest, st, acc =>
    if kv.2.Expiration > 0 ∧ now > kv.2.Expiration then
      match st.delete kv.1 with
      | ((ov, true), st') => deleteExpiredLoop now rest st' (acc ++ [(kv.1, ov)])
      | ((_, false), st') => deleteExpiredLoop now rest st' acc
    else
      deleteExpiredLoop now rest st acc

/-- `func (c *cache) DeleteExpired()`: run the loop over all entries
under the lock, then (after unlocking) invoke the callback on each
collected pair.  The second component lists those invocations. -/
def cache.DeleteExpired {V : Type} (c : cache V) (now : Int) :
    cache V × List (String × Option V) :=
  deleteExpiredLoop now c.items c []

/-- `func (c *cache) OnEvicted(f)`: install the callback. -/
def cache.OnEvicted {V : Type} (c : cache V) : cache V :=
  { c with onEvicted := true }

/-- `func (c *cache) ItemCount()`: `len(c.items)`. -/
def cache.ItemCount {V : Type} (c : cache V) : Nat :=
  c.items.length

/-- `func (c *cache) Items()`: copy of the map that skips every entry
with `v.Expiration > 0 && now > v.Expiration`. -/
def cache.Items {V : Type} (c : cache V) (now : Int) :
    List (String × Item V) :=
  c.items.filter
    (fun kv => !(decide (kv.2.Expiration > 0) && decide (now > kv.2.Expiration)))

/-- `func (c *cache) Flush()`: `c.items = map[string]Item{}` — the body
contains no call to `onEvicted`, so the invocation list is empty. -/
def cache.Flush {V : Type} (c : cache V) :
    cache V × List (String × Option V) :=
  ({ c with items := [] }, [])

/-- Lock/callback events, in program order, of one operation. -/
inductive LockEvent (V : Type) where
  | lock
  | unlock
  | callbackCall (k : String) (v : Option V)
deriving Repr, DecidableEq

/-- Whether an event is a callback invocation. -/
def LockEvent.isCallback {V : Type} : LockEvent V → Bool
  | LockEvent.callbackCall _ _ => true
  | _ => false

/-- Event trace of `Delete`: `c.mu.Lock()`, then `defer c.mu.Unlock()`
(which fires at return, i.e. last), then the map mutation, then — still
before the deferred unlock — the callback invocation when one occurred. -/
def cache.DeleteTrace {V : Type} (c : cache V) (k : String) :
    List (LockEvent V) :=
  match c.delete k with
  | ((v, true), _) => [LockEvent.lock, LockEvent.callbackCall k v, LockEvent.unlock]
  | ((_, false), _) => [LockEvent.lock, LockEvent.unlock]

/-- Event trace of `DeleteExpired`: `c.mu.Lock()`, the scan (no events),
`c.mu.Unlock()`, then the collected callback invocations. -/
def cache.DeleteExpiredTrace {V : Type} (c : cache V) (now : Int) :
    List (LockEvent V) :=
  [LockEvent.lock, LockEvent.unlock] ++
    ((c.DeleteExpired now).2.map (fun p => LockEvent.callbackCall p.1 p.2))

/-- Specification predicate: every callback invocation in the trace
happens strictly after some unlock event. -/
def callbacksAfterUnlock {V : Type} (tr : List (LockEvent V)) : Prop :=
  ∀ i : Fin tr.length, (tr.get i).isCallback = true →
    ∃ j : Fin tr.length, j.val < i.val ∧ tr.get j = LockEvent.unlock

instance {V : Type} [DecidableEq V] (tr : List (LockEvent V)) :
    Decidable (callbacksAfterUnlock tr) := by
  unfold callbacksAfterUnlock; infer_instance

/-- Specification-side predicate (the code's liveness test, named so the
theorems can quantify over it): an entry is expired at `now` iff its
expiration is positive and `now` has passed it. -/
def expiredAt {V : Type} (now : Int) (it : Item V) : Bool :=
  decide (it.Expiration > 0) && decide (now > it.Expiration)

/-- Specification-side Boolean key membership. -/
def keyIn (a : String) : List String → Bool
  | [] => false
  | k :: ks => (a == k) || keyIn a ks


lemma lookup_cons_self {V : Type} (k : String) (b : Item V)
    (t : List (String × Item V)) : ((k, b) :: t).lookup k = some b := by
  simp [List.lookup]

lemma lookup_cons_ne {V : Type} (a k : String) (h : a ≠ k) (b : Item V)
    (t : List (String × Item V)) : ((k, b) :: t).lookup a = t.lookup a := by
  simp [List.lookup, beq_false_of_ne h]

lemma eraseKey_cons_self {V : Type} (k : String) (b : Item V)
    (t : List (String × Item V)) :
    eraseKey k ((k, b) :: t) = eraseKey k t := by
  simp [eraseKey, List.filter_cons]

lemma eraseKey_cons_ne {V : Type} (k k' : String) (h : k' ≠ k) (b : Item V)
    (t : List (String × Item V)) :
    eraseKey k ((k', b) :: t) = (k', b) :: eraseKey k t := by
  simp [eraseKey, List.filter_cons, beq_false_of_ne h]

lemma lookup_append_of_none {V : Type} (a : String)
    (l1 l2 : List (String × Item V)) (h : l1.lookup a = none) :
    (l1 ++ l2).lookup a = l2.lookup a := by
  induction l1 with
  | nil => rfl
  | cons p t ih =>
    obtain ⟨k, b⟩ := p
    rw [List.cons_append]
    by_cases hk : a = k
    · subst hk; rw [lookup_cons_self] at h; cases h
    · rw [lookup_cons_ne a k hk] at h ⊢
      exact ih h

lemma eraseKey_lookup_self {V : Type} (k : String)
    (l : List (String × Item V)) : (eraseKey k l).lookup k = none := by
  induction l with
  | nil => rfl
  | cons p t ih =>
    obtain ⟨k', b⟩ := p
    by_cases hk : k' = k
    · subst hk; rw [eraseKey_cons_self]; exact ih
    · rw [eraseKey_cons_ne k k' hk, lookup_cons_ne k k' (fun he => hk he.symm)]
      exact ih

lemma eraseKey_lookup_ne {V : Type} (a k : String) (hk : a ≠ k)
    (l : List (String × Item V)) : (eraseKey k l).lookup a = l.lookup a := by
  induction l with
  | nil => rfl
  | cons p t ih =>
    obtain ⟨k', b⟩ := p
    by_cases h' : k' = k
    · subst h'
      rw [eraseKey_cons_self, lookup_cons_ne a k' hk]
      exact ih
    · rw [eraseKey_cons_ne k k' h']
      by_cases ha : a = k'
      · subst ha; rw [lookup_cons_self, lookup_cons_self]
      · rw [lookup_cons_ne a k' ha, lookup_cons_ne a k' ha]
        exact ih

lemma upsert_lookup_self {V : Type} (k : String) (it : Item V)
    (l : List (String × Item V)) : (upsert k it l).lookup k = some it := by
  unfold upsert
  rw [lookup_append_of_none k _ _ (eraseKey_lookup_self k l)]
  exact lookup_cons_self k it []

lemma lookup_some_append {V : Type} (a : String) (v : Item V)
    (l1 l2 : List (String × Item V)) (h : l1.lookup a = some v) :
    (l1 ++ l2).lookup a = some v := by
  induction l1 with
  | nil => cases h
  | cons p t ih =>
    obtain ⟨k, b⟩ := p
    rw [List.cons_append]
    by_cases hk : a = k
    · subst hk; rw [lookup_cons_self] at h ⊢; exact h
    · rw [lookup_cons_ne a k hk] at h ⊢
      exact ih h

lemma upsert_lookup_ne {V : Type} (a k : String) (hk : a ≠ k) (it : Item V)
    (l : List (String × Item V)) : (upsert k it l).lookup a = l.lookup a := by
  unfold upsert
  rcases hl : l.lookup a with _ | v
  · rw [lookup_append_of_none a _ _ ((eraseKey_lookup_ne a k hk l).trans hl)]
    rw [lookup_cons_ne a k hk]
    rfl
  · exact lookup_some_append a v _ _ ((eraseKey_lookup_ne a k hk l).trans hl)

lemma lookup_none_forall {V : Type} (k : String) (l : List (String × Item V))
    (h : l.lookup k = none) : ∀ p ∈ l, p.1 ≠ k := by
  induction l with
  | nil => intro p hp; cases hp
  | cons q t ih =>
    intro p hp
    obtain ⟨k', b⟩ := q
    by_cases hk : k = k'
    · subst hk; rw [lookup_cons_self] at h; cases h
    · rw [lookup_cons_ne k k' hk] at h
      rcases List.mem_cons.mp hp with hp | hp
      · subst hp; exact fun he => hk he.symm
      · exact ih h p hp

lemma eraseKey_of_lookup_none {V : Type} (k : String)
    (l : List (String × Item V)) (h : l.lookup k = none) :
    eraseKey k l = l := by
  unfold eraseKey
  rw [List.filter_eq_self]
  intro p hp
  simpa using beq_false_of_ne (lookup_none_forall k l h p hp)

lemma filter_keys_sublist {V : Type} (p : String × Item V → Bool)
    (l : List (String × Item V)) :
    ((l.filter p).map Prod.fst).Sublist (l.map Prod.fst) :=
  List.Sublist.map Prod.fst (List.filter_sublist l)

lemma eraseKey_keys_nodup {V : Type} (k : String)
    (l : List (String × Item V)) (h : (l.map Prod.fst).Nodup) :
    ((eraseKey k l).map Prod.fst).Nodup :=
  (filter_keys_sublist _ l).nodup h

lemma eraseKey_key_not_mem {V : Type} (k : String)
    (l : List (String × Item V)) : k ∉ (eraseKey k l).map Prod.fst := by
  intro hmem
  obtain ⟨p, hp, hk⟩ := List.mem_map.mp hmem
  have := List.of_mem_filter hp
  rw [hk] at this
  simp at this

lemma upsert_keys_nodup {V : Type} (k : String) (it : Item V)
    (l : List (String × Item V)) (h : (l.map Prod.fst).Nodup) :
    ((upsert k it l).map Prod.fst).Nodup := by
  unfold upsert
  rw [List.map_append]
  apply List.Nodup.append (eraseKey_keys_nodup k l h) (by simp)
  intro a ha hb
  simp only [List.map_cons, List.map_nil, List.mem_singleton] at hb
  rw [hb] at ha
  exact eraseKey_key_not_mem _ l ha

lemma lookup_eq_none_of_not_mem_keys {V : Type} (k : String)
    (l : List (String × Item V)) (h : k ∉ l.map Prod.fst) :
    l.lookup k = none := by
  induction l with
  | nil => rfl
  | cons p t ih =>
    obtain ⟨k', b⟩ := p
    simp only [List.map_cons, List.mem_cons, not_or] at h
    rw [lookup_cons_ne k k' h.1]
    exact ih h.2

lemma lookup_of_mem_nodup {V : Type} (k : String) (it : Item V)
    (l : List (String × Item V)) (hnd : (l.map Prod.fst).Nodup)
    (hmem : (k, it) ∈ l) : l.lookup k = some it := by
  induction l with
  | nil => cases hmem
  | cons p t ih =>
    obtain ⟨k', b⟩ := p
    simp only [List.map_cons, List.nodup_cons] at hnd
    rcases List.mem_cons.mp hmem with hmem | hmem
    · injection hmem with h1 h2
      subst h1; subst h2
      exact lookup_cons_self k it t
    · have hk : k ≠ k' :=
        fun he => hnd.1 (he ▸ List.mem_map.mpr ⟨(k, it), hmem, rfl⟩)
      rw [lookup_cons_ne k k' hk]
      exact ih hnd.2 hmem

lemma filter_lookup_some {V : Type} (k : String) (it : Item V)
    (p : String × Item V → Bool) (l : List (String × Item V))
    (h : l.lookup k = some it) (hp : p (k, it) = true) :
    (l.filter p).lookup k = some it := by
  induction l with
  | nil => cases h
  | cons q t ih =>
    obtain ⟨k', b⟩ := q
    by_cases hk : k = k'
    · subst hk
      rw [lookup_cons_self] at h
      injection h with h; subst h
      rw [List.filter_cons_of_pos hp]
      exact lookup_cons_self k b _
    · rw [lookup_cons_ne k k' hk] at h
      rcases hq : p (k', b) with _ | _
      · rw [List.filter_cons_of_neg (by simp [hq])]
        exact ih h
      · rw [List.filter_cons_of_pos hq, lookup_cons_ne k k' hk]
        exact ih h

lemma filter_lookup_none {V : Type} (k : String) (it : Item V)
    (p : String × Item V → Bool) (l : List (String × Item V))
    (hnd : (l.map Prod.fst).Nodup)
    (h : l.lookup k = some it) (hp : p (k, it) = false) :
    (l.filter p).lookup k = none := by
  induction l with
  | nil => cases h
  | cons q t ih =>
    obtain ⟨k', b⟩ := q
    simp only [List.map_cons, List.nodup_cons] at hnd
    by_cases hk : k = k'
    · subst hk
      rw [lookup_cons_self] at h
      injection h with h; subst h
      rw [List.filter_cons_of_neg (by simp [hp])]
      exact lookup_eq_none_of_not_mem_keys k _
        (fun hm => hnd.1 ((filter_keys_sublist p t).mem hm))
    · rw [lookup_cons_ne k k' hk] at h
      rcases hq : p (k', b) with _ | _
      · rw [List.filter_cons_of_neg (by simp [hq])]
        exact ih hnd.2 h
      · rw [List.filter_cons_of_pos hq, lookup_cons_ne k k' hk]
        exact ih hnd.2 h

lemma expiredAt_eq_true {V : Type} (now : Int) (it : Item V) :
    expiredAt now it = true ↔ (it.Expiration > 0 ∧ now > it.Expiration) := by
  simp [expiredAt]

lemma filter_expired_cons_true {V : Type} (now : Int) (k0 : String)
    (it0 : Item V) (rest : List (String × Item V))
    (h : expiredAt now it0 = true) :
    ((k0, it0) :: rest).filter (fun q => expiredAt now q.2) =
      (k0, it0) :: rest.filter (fun q => expiredAt now q.2) :=
  List.filter_cons_of_pos h

lemma filter_expired_cons_false {V : Type} (now : Int) (k0 : String)
    (it0 : Item V) (rest : List (String × Item V))
    (h : expiredAt now it0 = false) :
    ((k0, it0) :: rest).filter (fun q => expiredAt now q.2) =
      rest.filter (fun q => expiredAt now q.2) :=
  List.filter_cons_of_neg (by simp [h])

lemma delete_snd {V : Type} (c : cache V) (k : String) :
    (c.delete k).2 = { c with items := eraseKey k c.items } := by
  unfold cache.delete
  rcases hcb : c.onEvicted with _ | _
  · rfl
  · rcases hl : c.items.lookup k with _ | v <;> simp [hl]

lemma deleteExpiredLoop_preserve {V : Type} (now : Int)
    (l : List (String × Item V)) (st : cache V)
    (acc : List (String × Option V)) :
    (deleteExpiredLoop now l st acc).1.defaultExpiration = st.defaultExpiration ∧
    (deleteExpiredLoop now l st acc).1.onEvicted = st.onEvicted := by
  induction l generalizing st acc with
  | nil => exact ⟨rfl, rfl⟩
  | cons kv rest ih =>
    simp only [deleteExpiredLoop]
    split
    · rcases hd : st.delete kv.1 with ⟨⟨ov, evicted⟩, st'⟩
      have hst' : st' = { st with items := eraseKey kv.1 st.items } := by
        have h2 := delete_snd st kv.1
        rw [hd] at h2
        exact h2
      rcases evicted with _ | _
      · exact ⟨(ih st' _).1.trans (by rw [hst']),
          (ih st' _).2.trans (by rw [hst'])⟩
      · exact ⟨(ih st' _).1.trans (by rw [hst']),
          (ih st' _).2.trans (by rw [hst'])⟩
    · exact ih st acc

lemma deleteExpiredLoop_spec {V : Type} (now : Int)
    (l : List (String × Item V)) (st : cache V)
    (acc : List (String × Option V))
    (hnd : (l.map Prod.fst).Nodup)
    (hsub : ∀ kv ∈ l, st.items.lookup kv.1 = some kv.2) :
    deleteExpiredLoop now l st acc =
      ({ st with items := (st.items.filter
          (fun p => !(keyIn p.1
            ((l.filter (fun q => expiredAt now q.2)).map Prod.fst)))) },
       acc ++ (if st.onEvicted then
           (l.filter (fun q => expiredAt now q.2)).map
             (fun q => (q.1, some q.2.Object))
         else [])) := by
  induction l generalizing st acc with
  | nil =>
    simp [deleteExpiredLoop, keyIn]
  | cons kv rest ih =>
    obtain ⟨k0, it0⟩ := kv
    simp only [List.map_cons, List.nodup_cons] at hnd
    have hk0 : k0 ∉ rest.map Prod.fst := hnd.1
    have hndr : (rest.map Prod.fst).Nodup := hnd.2
    by_cases hexp : it0.Expiration > 0 ∧ now > it0.Expiration
    · -- expired head: it is deleted from the state
      have hexpB : expiredAt now it0 = true := (expiredAt_eq_true now it0).mpr hexp
      have hlook : st.items.lookup k0 = some it0 :=
        hsub (k0, it0) (List.mem_cons_self _ _)
      have hsub' : ∀ p ∈ rest,
          (eraseKey k0 st.items).lookup p.1 = some p.2 := by
        intro p hp
        have hne : p.1 ≠ k0 :=
          fun he => hk0 (he ▸ List.mem_map.mpr ⟨p, hp, rfl⟩)
        rw [eraseKey_lookup_ne p.1 k0 hne]
        exact hsub p (List.mem_cons_of_mem _ hp)
      have hfilter :
          (st.items.filter (fun p => !(p.1 == k0))).filter
              (fun p => !(keyIn p.1
                ((rest.filter (fun q => expiredAt now q.2)).map Prod.fst))) =
            st.items.filter (fun p => !(keyIn p.1
              ((((k0, it0) :: rest).filter
                (fun q => expiredAt now q.2)).map Prod.fst))) := by
        rw [List.filter_filter]
        apply List.filter_congr
        intro p _
        rw [filter_expired_cons_true now k0 it0 rest hexpB, List.map_cons,
          keyIn, Bool.not_or]
        exact Bool.and_comm _ _
      simp only [deleteExpiredLoop, if_pos hexp]
      rcases hcb : st.onEvicted with _ | _
      · have hdel : st.delete k0 =
            ((none, false), { st with items := eraseKey k0 st.items }) := by
          simp [cache.delete, hcb]
        rw [hdel]
        show deleteExpiredLoop now rest
          { st with items := eraseKey k0 st.items } acc = _
        rw [ih _ _ hndr hsub']
        refine Prod.ext ?_ ?_
        · show cache.mk _ _ _ = cache.mk _ _ _
          rw [show ({ st with items := eraseKey k0 st.items } : cache V).items
              = st.items.filter (fun p => !(p.1 == k0)) from rfl]
          rw [hfilter]
          simp [hcb]
        · show acc ++ _ = acc ++ _
          simp [hcb]
      · have hdel : st.delete k0 =
            ((some it0.Object, true),
              { st with items := eraseKey k0 st.items }) := by
          simp [cache.delete, hcb, hlook]
        rw [hdel]
        show deleteExpiredLoop now rest
          { st with items := eraseKey k0 st.items }
          (acc ++ [(k0, some it0.Object)]) = _
        rw [ih _ _ hndr hsub']
        refine Prod.ext ?_ ?_
        · show cache.mk _ _ _ = cache.mk _ _ _
          rw [show ({ st with items := eraseKey k0 st.items } : cache V).items
              = st.items.filter (fun p => !(p.1 == k0)) from rfl]
          rw [hfilter]
          simp [hcb]
        · show (acc ++ [(k0, some it0.Object)]) ++ _ = acc ++ _
          rw [List.append_assoc]
          simp only [hcb, if_pos]
          rw [filter_expired_cons_true now k0 it0 rest hexpB, List.map_cons]
          rfl
    · -- live head: the loop moves on without touching the state
      have hexpB : expiredAt now it0 = false := by
        rcases h : expiredAt now it0 with _ | _
        · rfl
        · exact absurd ((expiredAt_eq_true now it0).mp h) hexp
      simp only [deleteExpiredLoop, if_neg hexp]
      rw [ih _ _ hndr (fun p hp => hsub p (List.mem_cons_of_mem _ hp))]
      rw [filter_expired_cons_false now k0 it0 rest hexpB]

lemma Get_of_lookup_none {V : Type} (c : cache V) (now : Int) (k : String)
    (h : c.items.lookup k = none) : c.Get now k = (none, false) := by
  unfold cache.Get
  rw [h]

lemma Get_of_lookup_some {V : Type} (c : cache V) (now : Int) (k : String)
    (it : Item V) (h : c.items.lookup k = some it) :
    c.Get now k = if it.Expiration > 0 ∧ now > it.Expiration
      then (none, false) else (some it.Object, true) := by
  unfold cache.Get
  rw [h]

lemma get_of_lookup_none {V : Type} (c : cache V) (now : Int) (k : String)
    (h : c.items.lookup k = none) : c.get now k = (none, false) := by
  unfold cache.get
  rw [h]

lemma get_of_lookup_some {V : Type} (c : cache V) (now : Int) (k : String)
    (it : Item V) (h : c.items.lookup k = some it) :
    c.get now k = if it.Expiration > 0 ∧ now > it.Expiration
      then (none, false) else (some it.Object, true) := by
  unfold cache.get
  rw [h]

lemma keyIn_eq_true_iff (a : String) (ks : List String) :
    keyIn a ks = true ↔ a ∈ ks := by
  induction ks with
  | nil => simp [keyIn]
  | cons k t ih => simp [keyIn, ih, beq_iff_eq]

lemma eq_of_mem_nodup_same_key {V : Type} (l : List (String × Item V))
    (hnd : (l.map Prod.fst).Nodup) (p q : String × Item V)
    (hp : p ∈ l) (hq : q ∈ l) (h : p.1 = q.1) : p = q := by
  have h1 : l.lookup p.1 = some p.2 := lookup_of_mem_nodup p.1 p.2 l hnd hp
  have h2 : l.lookup q.1 = some q.2 := lookup_of_mem_nodup q.1 q.2 l hnd hq
  rw [h] at h1
  rw [h1] at h2
  injection h2 with h2
  exact Prod.ext h h2

lemma keyIn_expired_eq {V : Type} (now : Int) (l : List (String × Item V))
    (hnd : (l.map Prod.fst).Nodup) (p : String × Item V) (hp : p ∈ l) :
    keyIn p.1 ((l.filter (fun q => expiredAt now q.2)).map Prod.fst)
      = expiredAt now p.2 := by
  rcases h : expiredAt now p.2 with _ | _
  · rcases hk : keyIn p.1 ((l.filter (fun q => expiredAt now q.2)).map Prod.fst)
      with _ | _
    · exact hk
    · exfalso
      obtain ⟨q, hqf, hqk⟩ :=
        List.mem_map.mp ((keyIn_eq_true_iff _ _).mp hk)
      have hql : q ∈ l := List.mem_of_mem_filter hqf
      have hqe : expiredAt now q.2 = true := (List.mem_filter.mp hqf).2
      have hqp : q = p := eq_of_mem_nodup_same_key l hnd q p hql hp hqk
      rw [hqp, h] at hqe
      cases hqe
  · exact (keyIn_eq_true_iff _ _).mpr
      (List.mem_map.mpr ⟨p, List.mem_filter.mpr ⟨hp, h⟩, rfl⟩)

/-- C6: `Flush` leaves the store empty — `ItemCount` is 0 — and performs
no eviction-callback invocation for any entry. -/
theorem flush_empties_without_callback {V : Type} (c : cache V) :
    (c.Flush).1.ItemCount = 0 ∧ (c.Flush).1.items = [] ∧ (c.Flush).2 = [] :=
  ⟨rfl, rfl, rfl⟩

/-- C5: `Replace` on a key with no live entry (absent or expired) fails
with KeyNotFound and leaves the whole store unchanged, and it succeeds
only when a live entry occupies the key. -/
theorem replace_requires_live_entry {V : Type} (c : cache V) (now : Int)
    (k : String) (x : V) (d : Int) :
    ((c.get now k).2 = false →
      c.Replace now k x d = (c, some (CacheError.keyNotFound k))) ∧
    ((c.Replace now k x d).2 = none → (c.get now k).2 = true) := by
  rcases hg : c.get now k with ⟨o, b⟩
  rcases b with _ | _
  · constructor
    · intro _
      unfold cache.Replace
      rw [hg]
    · intro h
      unfold cache.Replace at h
      rw [hg] at h
      cases h
  · constructor
    · intro h
      cases h
    · intro _
      rfl

/-- C7: `Delete` on an absent key is a no-op with no callback
invocation; on a present key it removes the entry and invokes the
callback with (key, value) exactly when one is registered. -/
theorem delete_total_spec {V : Type} (c : cache V) (k : String) :
    (c.items.lookup k = none → c.Delete k = (c, [])) ∧
    (∀ it, c.items.lookup k = some it →
      ((c.Delete k).1.items.lookup k = none ∧
        (c.Delete k).2 = (if c.onEvicted then [(k, some it.Object)] else []))) := by
  constructor
  · intro h
    have herase : eraseKey k c.items = c.items := eraseKey_of_lookup_none k _ h
    have heta : ({ c with items := c.items } : cache V) = c := rfl
    have hdel : c.delete k = ((none, false), c) := by
      have hs := delete_snd c k
      rw [herase, heta] at hs
      have hf : (c.delete k).1 = (none, false) := by
        rcases hcb : c.onEvicted with _ | _
        · simp [cache.delete, hcb]
        · simp [cache.delete, hcb, h]
      exact Prod.ext hf hs
    unfold cache.Delete
    rw [hdel]
  · intro it h
    rcases hcb : c.onEvicted with _ | _
    · have hdel : c.delete k =
          ((none, false), { c with items := eraseKey k c.items }) := by
        simp [cache.delete, hcb]
      unfold cache.Delete
      rw [hdel]
      exact ⟨eraseKey_lookup_self k c.items, rfl⟩
    · have hdel : c.delete k =
          ((some it.Object, true), { c with items := eraseKey k c.items }) := by
        simp [cache.delete, hcb, h]
      unfold cache.Delete
      rw [hdel]
      exact ⟨eraseKey_lookup_self k c.items, rfl⟩

/-- C5 witness: `Replace` on a missing key of a concrete empty cache
fails with KeyNotFound and leaves the cache unchanged. -/
theorem replace_requires_live_entry_witness :
    ((newCache (-1) ([] : List (String × Item Nat))).get 0 "missing").2 = false ∧
    (newCache (-1) ([] : List (String × Item Nat))).Replace 0 "missing" 7 5
      = (newCache (-1) ([] : List (String × Item Nat)),
         some (CacheError.keyNotFound "missing")) :=
  ⟨rfl, (replace_requires_live_entry
      (newCache (-1) ([] : List (String × Item Nat))) 0 "missing" 7 5).1 rfl⟩

/-- C7 witness: `Delete` at a concrete cache — the callback invocation
carries the stored value of the present key. -/
theorem delete_total_spec_witness :
    (({ defaultExpiration := -1, items := [("k", ⟨(7:Nat), 0⟩)],
        onEvicted := true } : cache Nat).items.lookup "k" = some ⟨7, 0⟩) ∧
    (({ defaultExpiration := -1, items := [("k", ⟨(7:Nat), 0⟩)],
        onEvicted := true } : cache Nat).Delete "k").2 = [("k", some 7)] := by
  refine ⟨rfl, ?_⟩
  have h := (delete_total_spec
    ({ defaultExpiration := -1, items := [("k", ⟨(7:Nat), 0⟩)],
       onEvicted := true } : cache Nat) "k").2 ⟨7, 0⟩ rfl
  rw [h.2]
  rfl

lemma GetWithExpiration_of_lookup_none {V : Type} (c : cache V) (now : Int)
    (k : String) (h : c.items.lookup k = none) :
    c.GetWithExpiration now k = (none, GoTime.zero, false) := by
  unfold cache.GetWithExpiration
  rw [h]

lemma GetWithExpiration_of_lookup_some {V : Type} (c : cache V) (now : Int)
    (k : String) (it : Item V) (h : c.items.lookup k = some it) :
    c.GetWithExpiration now k =
      if it.Expiration > 0 then
        if now > it.Expiration then (none, GoTime.zero, false)
        else (some it.Object, GoTime.unixNano it.Expiration, true)
      else (some it.Object, GoTime.zero, true) := by
  unfold cache.GetWithExpiration
  rw [h]

/-- C8: `GetWithExpiration` follows the liveness rule of `Get` (same
found flag); a live entry with positive deadline yields
`(value, time.Unix(0, e), true)`, a live never-expiring entry yields
`(value, time.Time\x7b\x7d, true)`, and an absent or expired key yields
`(nil, time.Time\x7b\x7d, false)`. -/
theorem getWithExpiration_liveness {V : Type} (c : cache V) (now : Int)
    (k : String) :
    ((c.GetWithExpiration now k).2.2 = (c.Get now k).2) ∧
    (∀ it, c.items.lookup k = some it → it.Expiration > 0 →
      now ≤ it.Expiration →
      c.GetWithExpiration now k
        = (some it.Object, GoTime.unixNano it.Expiration, true)) ∧
    (∀ it, c.items.lookup k = some it → it.Expiration ≤ 0 →
      c.GetWithExpiration now k = (some it.Object, GoTime.zero, true)) ∧
    (c.items.lookup k = none →
      c.GetWithExpiration now k = (none, GoTime.zero, false)) ∧
    (∀ it, c.items.lookup k = some it → it.Expiration > 0 →
      now > it.Expiration →
      c.GetWithExpiration now k = (none, GoTime.zero, false)) := by
  refine ⟨?_, ?_, ?_, ?_, ?_⟩
  · rcases hl : c.items.lookup k with _ | it
    · rw [GetWithExpiration_of_lookup_none c now k hl,
        Get_of_lookup_none c now k hl]
    · rw [GetWithExpiration_of_lookup_some c now k it hl,
        Get_of_lookup_some c now k it hl]
      by_cases h1 : it.Expiration > 0
      · by_cases h2 : now > it.Expiration
        · rw [if_pos h1, if_pos h2, if_pos ⟨h1, h2⟩]
        · rw [if_pos h1, if_neg h2, if_neg (fun h => h2 h.2)]
      · rw [if_neg h1, if_neg (fun h => h1 h.1)]
  · intro it hl h1 h2
    rw [GetWithExpiration_of_lookup_some c now k it hl,
      if_pos h1, if_neg (by omega)]
  · intro it hl h1
    rw [GetWithExpiration_of_lookup_some c now k it hl, if_neg (by omega)]
  · intro hl
    exact GetWithExpiration_of_lookup_none c now k hl
  · intro it hl h1 h2
    rw [GetWithExpiration_of_lookup_some c now k it hl, if_pos h1, if_pos h2]

/-- C8 witness: a concrete cache with one finite-deadline entry and one
never-expiring entry, read at time 5. -/
theorem getWithExpiration_liveness_witness :
    ({ defaultExpiration := -1,
       items := [("a", ⟨(1:Nat), 10⟩), ("b", ⟨2, 0⟩)],
       onEvicted := false } : cache Nat).GetWithExpiration 5 "a"
      = (some 1, GoTime.unixNano 10, true) ∧
    ({ defaultExpiration := -1,
       items := [("a", ⟨(1:Nat), 10⟩), ("b", ⟨2, 0⟩)],
       onEvicted := false } : cache Nat).GetWithExpiration 5 "b"
      = (some 2, GoTime.zero, true) :=
  ⟨(getWithExpiration_liveness
      ({ defaultExpiration := -1,
         items := [("a", ⟨(1:Nat), 10⟩), ("b", ⟨2, 0⟩)],
         onEvicted := false } : cache Nat) 5 "a").2.1 ⟨1, 10⟩
      (by decide) (by decide) (by decide),
   (getWithExpiration_liveness
      ({ defaultExpiration := -1,
         items := [("a", ⟨(1:Nat), 10⟩), ("b", ⟨2, 0⟩)],
         onEvicted := false } : cache Nat) 5 "b").2.2.1 ⟨2, 0⟩
      (by decide) (by decide)⟩

/-- C2: `Set` with a positive ttl then an immediate `Get` returns
`(value, true)`; once the current time has passed the deadline
`now + ttl`, `Get` returns `(nil, false)`.  (`0 < now` reflects that
`time.Now().UnixNano()` is positive on any realistic clock.) -/
theorem set_then_get_ttl {V : Type} (c : cache V) (now : Int) (k : String)
    (x : V) (d : Int) (hd : 0 < d) (hnow : 0 < now) :
    (c.Set now k x d).Get now k = (some x, true) ∧
    (∀ t, now + d < t → (c.Set now k x d).Get t k = (none, false)) := by
  have hitems : (c.Set now k x d).items = upsert k ⟨x, now + d⟩ c.items := by
    show upsert k ⟨x, if (if d = DefaultExpiration
        then c.defaultExpiration else d) > 0 then now + d else 0⟩ c.items = _
    rw [if_neg (show ¬d = DefaultExpiration by unfold DefaultExpiration; omega),
      if_pos hd]
  have hlk : (c.Set now k x d).items.lookup k = some ⟨x, now + d⟩ := by
    rw [hitems]
    exact upsert_lookup_self k _ c.items
  constructor
  · rw [Get_of_lookup_some _ now k _ hlk]
    exact if_neg (by
      show ¬(now + d > 0 ∧ now > now + d)
      rintro ⟨h1, h2⟩
      omega)
  · intro t ht
    rw [Get_of_lookup_some _ t k _ hlk]
    refine if_pos ?_
    show now + d > 0 ∧ t > now + d
    omega

/-- C2 witness: set at time 1 with ttl 2 on a concrete empty cache. -/
theorem set_then_get_ttl_witness :
    ((newCache (-1) ([] : List (String × Item Nat))).Set 1 "k" 5 2).Get 1 "k"
      = (some 5, true) ∧
    ((newCache (-1) ([] : List (String × Item Nat))).Set 1 "k" 5 2).Get 4 "k"
      = (none, false) :=
  ⟨(set_then_get_ttl (newCache (-1) ([] : List (String × Item Nat)))
      1 "k" 5 2 (by decide) (by decide)).1,
   (set_then_get_ttl (newCache (-1) ([] : List (String × Item Nat)))
      1 "k" 5 2 (by decide) (by decide)).2 4 (by decide)⟩

/-- C1: after a first `Add` of `v1` succeeds with positive ttl, a second
`Add` of `v2` issued while that entry is still live fails with KeyExists,
leaves the state unchanged, and the stored value for the key is still
`v1`. -/
theorem add_on_live_key_fails {V : Type} (c : cache V) (k : String)
    (v1 v2 : V) (d t1 t2 : Int) (hd : 0 < d)
    (h1 : (c.Add t1 k v1 d).2 = none)
    (hlive : ((c.Add t1 k v1 d).1.get t2 k).2 = true) :
    ((c.Add t1 k v1 d).1.Add t2 k v2 d).2 = some (CacheError.keyExists k) ∧
    ((c.Add t1 k v1 d).1.Add t2 k v2 d).1 = (c.Add t1 k v1 d).1 ∧
    (∃ e : Int,
      ((c.Add t1 k v1 d).1.Add t2 k v2 d).1.items.lookup k = some ⟨v1, e⟩) := by
  rcases hg1 : c.get t1 k with ⟨o1, b1⟩
  rcases b1 with _ | _
  · -- the first Add took the not-found branch and stored v1
    have hAdd1 : c.Add t1 k v1 d = (c.set t1 k v1 d, none) := by
      unfold cache.Add
      rw [hg1]
    rcases hg2 : (c.Add t1 k v1 d).1.get t2 k with ⟨o2, b2⟩
    rw [hg2] at hlive
    have hb2 : b2 = true := hlive
    subst hb2
    have hg2a : (c.set t1 k v1 d).get t2 k = (o2, true) := by
      rw [hAdd1] at hg2
      exact hg2
    have hAdd2 : (c.set t1 k v1 d).Add t2 k v2 d
        = (c.set t1 k v1 d, some (CacheError.keyExists k)) := by
      unfold cache.Add
      rw [hg2a]
    refine ⟨by simp only [hAdd1, hAdd2], by simp only [hAdd1, hAdd2], ?_⟩
    refine ⟨if (if d = DefaultExpiration then c.defaultExpiration else d) > 0
        then t1 else 0, ?_⟩
    simp only [hAdd1, hAdd2]
    show (c.set t1 k v1 d).items.lookup k = _
    exact upsert_lookup_self k _ c.items
  · -- impossible: the first Add would have failed
    unfold cache.Add at h1
    rw [hg1] at h1
    simp at h1

lemma mem_of_lookup_eq_some {V : Type} (k : String) (it : Item V)
    (l : List (String × Item V)) (h : l.lookup k = some it) : (k, it) ∈ l := by
  induction l with
  | nil => cases h
  | cons p t ih =>
    obtain ⟨k', b⟩ := p
    by_cases hk : k = k'
    · subst hk
      rw [lookup_cons_self] at h
      injection h with h
      subst h
      exact List.mem_cons_self _ _
    · rw [lookup_cons_ne k k' hk] at h
      exact List.mem_cons_of_mem _ (ih h)

/-- C1 witness: concrete double `Add` on the same key. -/
theorem add_on_live_key_fails_witness :
    ((0:Int) < 2) ∧
    ((newCache (-1) ([] : List (String × Item Nat))).Add 0 "k" 1 2).2 = none ∧
    (((newCache (-1) ([] : List (String × Item Nat))).Add 0 "k" 1 2).1.get
        0 "k").2 = true ∧
    (((newCache (-1) ([] : List (String × Item Nat))).Add 0 "k" 1 2).1.Add
        0 "k" 2 2).2 = some (CacheError.keyExists "k") :=
  ⟨by decide, rfl, rfl,
   (add_on_live_key_fails (newCache (-1) ([] : List (String × Item Nat)))
      "k" 1 2 2 0 0 (by decide) rfl rfl).1⟩

/-- C3 is violated by `Delete` and satisfied by `DeleteExpired`: with a
callback registered and key `"k"` present, `Delete` invokes the callback
between `c.mu.Lock()` and the `defer c.mu.Unlock()` — i.e. while the
write lock is held — whereas `DeleteExpired` unlocks before invoking it. -/
theorem delete_invokes_callback_under_lock :
    ¬ callbacksAfterUnlock
        (cache.DeleteTrace
          ({ defaultExpiration := -1, items := [("k", ⟨(7:Nat), 0⟩)],
             onEvicted := true } : cache Nat) "k") ∧
    callbacksAfterUnlock
        (cache.DeleteExpiredTrace
          ({ defaultExpiration := -1, items := [("k", ⟨(7:Nat), 1⟩)],
             onEvicted := true } : cache Nat) 5) := by
  constructor
  · decide
  · decide

/-- C4: with a callback registered (and the map's keys unique, as in any
Go map), `DeleteExpired` removes exactly the entries whose positive
deadline has passed — never-expire entries (`Expiration == 0`) are kept —
and reports each removed (key, value) pair to the callback exactly once;
a removed key then `Get`s as `(nil, false)` and the item count drops by
the number of removals. -/
theorem deleteExpired_removes_exactly_expired {V : Type} (c : cache V)
    (now : Int) (hcb : c.onEvicted = true)
    (hnd : (c.items.map Prod.fst).Nodup) :
    (c.DeleteExpired now).1.items
        = c.items.filter (fun p => !(expiredAt now p.2)) ∧
    (c.DeleteExpired now).2
        = (c.items.filter (fun p => expiredAt now p.2)).map
            (fun p => (p.1, some p.2.Object)) ∧
    (∀ k it, c.items.lookup k = some it → expiredAt now it = true →
      (c.DeleteExpired now).1.Get now k = (none, false)) ∧
    (c.DeleteExpired now).1.ItemCount + (c.DeleteExpired now).2.length
        = c.ItemCount := by
  have hsub : ∀ kv ∈ c.items, c.items.lookup kv.1 = some kv.2 :=
    fun kv hm => lookup_of_mem_nodup kv.1 kv.2 c.items hnd hm
  have hrun := deleteExpiredLoop_spec now c.items c [] hnd hsub
  have hDE : c.DeleteExpired now = _ := hrun
  have hitems : (c.DeleteExpired now).1.items
      = c.items.filter (fun p => !(expiredAt now p.2)) := by
    rw [hDE]
    show c.items.filter _ = c.items.filter _
    apply List.filter_congr
    intro p hp
    rw [keyIn_expired_eq now c.items hnd p hp]
  have hev : (c.DeleteExpired now).2
      = (c.items.filter (fun p => expiredAt now p.2)).map
          (fun p => (p.1, some p.2.Object)) := by
    rw [hDE]
    show [] ++ (if c.onEvicted then _ else []) = _
    rw [hcb]
    simp
  refine ⟨hitems, hev, ?_, ?_⟩
  · intro k it hlk hexp
    have hnone : (c.DeleteExpired now).1.items.lookup k = none := by
      rw [hitems]
      refine filter_lookup_none k it _ c.items hnd hlk ?_
      show (!(expiredAt now it)) = false
      rw [hexp]
      rfl
    exact Get_of_lookup_none _ now k hnone
  · show (c.DeleteExpired now).1.items.length + _ = c.items.length
    rw [hitems, hev, List.length_map]
    have hsplit := List.length_eq_length_filter_add
      (l := c.items) (fun p => expiredAt now p.2)
    omega

/-- C4 witness: a concrete two-entry cache at time 5 — the expired entry
`"a"` is reported to the callback and removed, the never-expiring `"b"`
is kept. -/
theorem deleteExpired_removes_exactly_expired_witness :
    (({ defaultExpiration := -1,
        items := [("a", ⟨(1:Nat), 1⟩), ("b", ⟨2, 0⟩)],
        onEvicted := true } : cache Nat).DeleteExpired 5).2
      = [("a", some 1)] ∧
    (({ defaultExpiration := -1,
        items := [("a", ⟨(1:Nat), 1⟩), ("b", ⟨2, 0⟩)],
        onEvicted := true } : cache Nat).DeleteExpired 5).1.ItemCount = 1 := by
  have h := deleteExpired_removes_exactly_expired
    ({ defaultExpiration := -1,
       items := [("a", ⟨(1:Nat), 1⟩), ("b", ⟨2, 0⟩)],
       onEvicted := true } : cache Nat) 5 rfl (by decide)
  constructor
  · rw [h.2.1]
    decide
  · show (({ defaultExpiration := -1,
             items := [("a", ⟨(1:Nat), 1⟩), ("b", ⟨2, 0⟩)],
             onEvicted := true } : cache Nat).DeleteExpired 5).1.items.length = 1
    rw [h.1]
    decide

/-- C9: a store constructed with default TTL 0 ("use store default") is
normalized at construction to -1 ("never expire"); on any cache whose
default is -1, every write that passes `DefaultExpiration` stores a
never-expiring entry (`Expiration = 0`, always `Get`-able), and every
operation preserves the default, so this holds for all subsequent
writes. -/
theorem default_zero_normalized_to_never {V : Type}
    (m : List (String × Item V)) (c : cache V) (now : Int) (k : String)
    (x : V) (hc : c.defaultExpiration = -1) :
    ((newCache 0 m).defaultExpiration = -1) ∧
    ((c.Set now k x DefaultExpiration).items.lookup k = some ⟨x, 0⟩) ∧
    ((c.SetDefault now k x).items.lookup k = some ⟨x, 0⟩) ∧
    ((c.set now k x DefaultExpiration).items.lookup k = some ⟨x, 0⟩) ∧
    (∀ t, (c.Set now k x DefaultExpiration).Get t k = (some x, true)) ∧
    (∀ t k' x' d', ((c.Set t k' x' d' : cache V)).defaultExpiration
        = c.defaultExpiration) ∧
    (∀ t k' x' d', ((c.set t k' x' d' : cache V)).defaultExpiration
        = c.defaultExpiration) ∧
    (∀ t k' x' d', ((c.Add t k' x' d').1).defaultExpiration
        = c.defaultExpiration) ∧
    (∀ t k' x' d', ((c.Replace t k' x' d').1).defaultExpiration
        = c.defaultExpiration) ∧
    (∀ k', ((c.Delete k').1).defaultExpiration = c.defaultExpiration) ∧
    (∀ t, ((c.DeleteExpired t).1).defaultExpiration = c.defaultExpiration) ∧
    ((c.Flush).1.defaultExpiration = c.defaultExpiration) := by
  have hSetItems : (c.Set now k x DefaultExpiration).items
      = upsert k ⟨x, 0⟩ c.items := by
    show upsert k ⟨x, if (if DefaultExpiration = DefaultExpiration
        then c.defaultExpiration else DefaultExpiration) > 0
        then now + DefaultExpiration else 0⟩ c.items = _
    rw [if_pos rfl, hc, if_neg (by norm_num)]
  have hsetItems : (c.set now k x DefaultExpiration).items
      = upsert k ⟨x, 0⟩ c.items := by
    show upsert k ⟨x, if (if DefaultExpiration = DefaultExpiration
        then c.defaultExpiration else DefaultExpiration) > 0
        then now else 0⟩ c.items = _
    rw [if_pos rfl, hc, if_neg (by norm_num)]
  have hlk : (c.Set now k x DefaultExpiration).items.lookup k
      = some ⟨x, 0⟩ := by
    rw [hSetItems]
    exact upsert_lookup_self k _ c.items
  refine ⟨rfl, hlk, ?_, ?_, ?_, fun t k' x' d' => rfl, fun t k' x' d' => rfl,
    ?_, ?_, ?_, fun t => (deleteExpiredLoop_preserve t c.items c []).1, rfl⟩
  · show (c.Set now k x DefaultExpiration).items.lookup k = some ⟨x, 0⟩
    exact hlk
  · rw [hsetItems]
    exact upsert_lookup_self k _ c.items
  · intro t
    rw [Get_of_lookup_some _ t k _ hlk]
    refine if_neg ?_
    show ¬((0:Int) > 0 ∧ t > (0:Int))
    omega
  · intro t k' x' d'
    unfold cache.Add
    rcases hg : c.get t k' with ⟨o, b⟩
    rcases b with _ | _ <;> rfl
  · intro t k' x' d'
    unfold cache.Replace
    rcases hg : c.get t k' with ⟨o, b⟩
    rcases b with _ | _ <;> rfl
  · intro k'
    unfold cache.Delete
    rcases hd : c.delete k' with ⟨⟨ov, ev⟩, c'⟩
    have hc' : c' = { c with items := eraseKey k' c.items } := by
      have hs := delete_snd c k'
      rw [hd] at hs
      exact hs
    rcases ev with _ | _ <;>
      (show c'.defaultExpiration = c.defaultExpiration; rw [hc'])

/-- C9 witness: a cache built with default TTL 0 — a default-TTL write
never expires. -/
theorem default_zero_normalized_to_never_witness :
    ((newCache 0 ([] : List (String × Item Nat))).defaultExpiration = -1) ∧
    ((newCache 0 ([] : List (String × Item Nat))).Set 3 "k" 9
        DefaultExpiration).items.lookup "k" = some ⟨9, 0⟩ ∧
    ((newCache 0 ([] : List (String × Item Nat))).Set 3 "k" 9
        DefaultExpiration).Get 1000000 "k" = (some 9, true) := by
  have h := default_zero_normalized_to_never
    ([] : List (String × Item Nat)) (newCache 0 ([] : List (String × Item Nat)))
    3 "k" 9 rfl
  exact ⟨h.1, h.2.1, h.2.2.2.2.1 1000000⟩

/-- C10: `Set` with ANY negative duration — not only the sentinel -1 —
stores `Expiration = 0`, which `get`, `Get`, `GetWithExpiration`,
`Items` and `DeleteExpired` all treat as never expiring, at every
observation time. -/
theorem set_negative_never_expires {V : Type} (c : cache V) (now : Int)
    (k : String) (x : V) (d : Int) (hd : d < 0)
    (hnd : (c.items.map Prod.fst).Nodup) :
    ((c.Set now k x d).items.lookup k = some ⟨x, 0⟩) ∧
    (∀ t, (c.Set now k x d).get t k = (some x, true)) ∧
    (∀ t, (c.Set now k x d).Get t k = (some x, true)) ∧
    (∀ t, (c.Set now k x d).GetWithExpiration t k
        = (some x, GoTime.zero, true)) ∧
    (∀ t, ((c.Set now k x d).Items t).lookup k = some ⟨x, 0⟩) ∧
    (∀ t, ((c.Set now k x d).DeleteExpired t).1.items.lookup k
        = some ⟨x, 0⟩) := by
  have hitems : (c.Set now k x d).items = upsert k ⟨x, 0⟩ c.items := by
    show upsert k ⟨x, if (if d = DefaultExpiration
        then c.defaultExpiration else d) > 0 then now + d else 0⟩ c.items = _
    rw [if_neg (show ¬d = DefaultExpiration by unfold DefaultExpiration; omega),
      if_neg (by omega)]
  have hlk : (c.Set now k x d).items.lookup k = some ⟨x, 0⟩ := by
    rw [hitems]
    exact upsert_lookup_self k _ c.items
  have hnd' : ((c.Set now k x d).items.map Prod.fst).Nodup := by
    rw [hitems]
    exact upsert_keys_nodup k _ c.items hnd
  refine ⟨hlk, ?_, ?_, ?_, ?_, ?_⟩
  · intro t
    rw [get_of_lookup_some _ t k _ hlk]
    refine if_neg ?_
    show ¬((0:Int) > 0 ∧ t > (0:Int))
    omega
  · intro t
    rw [Get_of_lookup_some _ t k _ hlk]
    refine if_neg ?_
    show ¬((0:Int) > 0 ∧ t > (0:Int))
    omega
  · intro t
    rw [GetWithExpiration_of_lookup_some _ t k _ hlk]
    refine if_neg ?_
    show ¬((0:Int) > 0)
    omega
  · intro t
    show ((c.Set now k x d).items.filter _).lookup k = some ⟨x, 0⟩
    exact filter_lookup_some k ⟨x, 0⟩ _ _ hlk rfl
  · intro t
    have hsub : ∀ kv ∈ (c.Set now k x d).items,
        (c.Set now k x d).items.lookup kv.1 = some kv.2 :=
      fun kv hm => lookup_of_mem_nodup kv.1 kv.2 _ hnd' hm
    have hrun := deleteExpiredLoop_spec t (c.Set now k x d).items
      (c.Set now k x d) [] hnd' hsub
    have hDE : (c.Set now k x d).DeleteExpired t = _ := hrun
    rw [hDE]
    show ((c.Set now k x d).items.filter _).lookup k = some ⟨x, 0⟩
    refine filter_lookup_some k ⟨x, 0⟩ _ _ hlk ?_
    have hmem : (k, (⟨x, 0⟩ : Item V)) ∈ (c.Set now k x d).items :=
      mem_of_lookup_eq_some k _ _ hlk
    have hkeq : keyIn k
        ((((c.Set now k x d).items).filter
          (fun q => expiredAt t q.2)).map Prod.fst)
        = expiredAt t (⟨x, 0⟩ : Item V) :=
      keyIn_expired_eq t _ hnd' (k, ⟨x, 0⟩) hmem
    show (!(keyIn k ((((c.Set now k x d).items).filter
        (fun q => expiredAt t q.2)).map Prod.fst))) = true
    rw [hkeq]
    rfl

/-- C10 witness: `Set` with duration -2 on a concrete cache. -/
theorem set_negative_never_expires_witness :
    ((newCache (-1) ([] : List (String × Item Nat))).Set 5 "k" 3
        (-2)).items.lookup "k" = some ⟨3, 0⟩ ∧
    ((newCache (-1) ([] : List (String × Item Nat))).Set 5 "k" 3
        (-2)).Get 1000000 "k" = (some 3, true) := by
  have h := set_negative_never_expires
    (newCache (-1) ([] : List (String × Item Nat))) 5 "k" 3 (-2)
    (by decide) (by decide)
  exact ⟨h.1, h.2.2.1 1000000⟩

end GoCache
